import Mathlib

/-!
Verification of the footing task-execution engine (src/footing/).

The definitions below are a shallow embedding of the Python source:

* `Artifact`, `TaskM`, `cached_ref`/`cache_ref`/`run_task`, `kahn`/`callOrder`
  embed `src/footing/core.py` (`Artifact`, `Task`, `Runner`).
* `hash_file`, `ToolkitM.is_cached` embed `src/footing/obj.py` and
  `src/footing/tools.py`.
* `contextualEnter`/`contextualExit` embed `core.Contextual`.
* `edgesFuel` embeds `core.Task.edges`, instrumented with an explicit
  recursion-depth bound so that non-termination on cyclic configurations is
  expressible.

The filesystem is modelled as a finite association list from paths to
(content, mtime) pairs; mtimes are modelled as naturals (Python renders its
float mtimes with `str`, we render naturals with `toString`; only
determinism and the `None` sentinel of the rendering matter below).
-/

/-- Modelled from the spec: `footing.utils.hash128` (absent from `src/`; the
spec calls it a deterministic fingerprint of its input, backed by xxhash).
Modelled as a deterministic placeholder digest; no theorem below relies on
anything but it being a function (equal inputs give equal digests). -/
def hash128 (s : String) : String := "xxh128-" ++ s

/-- Modelled from the spec: `footing.utils.hash128(*parts)` applied to several
arguments (absent from `src/`); the parts are combined deterministically. -/
def hash128L (parts : List String) : String := hash128 (String.intercalate "\u001f" parts)

/-- Modelled from the spec: `footing.obj.hash`, i.e. `xxhash.xxh3_128_hexdigest`
(the xxhash library is an external collaborator). Deterministic placeholder
digest, as for `hash128`. -/
def objHash (s : String) : String := "xxh3-" ++ s

/-- A file on disk: its text content and its modification time. -/
structure FileInfo where
  content : String
  mtime : Nat
deriving DecidableEq

/-- The filesystem: a finite map from paths to files. -/
structure FS where
  files : List (String × FileInfo)
deriving DecidableEq

def FS.lookup (fs : FS) (p : String) : Option FileInfo :=
  (fs.files.find? (fun q => q.1 == p)).map (·.2)

def FS.pathExists (fs : FS) (p : String) : Bool :=
  (fs.lookup p).isSome

/-- `core.Artifact`: `name`, `type` (`"file"` or `"glob"`), `path`. -/
structure Artifact where
  name : String
  type : String
  path : String
deriving DecidableEq

/-- `core.Artifact._mtime`: `os.path.getmtime`, with `FileNotFoundError`
mapped to `None`. -/
def Artifact.amtime (fs : FS) (p : String) : Option Nat :=
  (fs.lookup p).map (·.mtime)

/-- How the Python f-string renders `self._mtime(file)`: the number for an
existing file, the sentinel text `None` for a missing one. -/
def mtimeRepr (o : Option Nat) : String :=
  match o with
  | some m => toString m
  | none => "None"

/-- One component of a glob fingerprint: the Python f-string
`f"{file}:{self._mtime(file)}"`; a missing file renders its mtime as `None`. -/
def globComponent (fs : FS) (f : String) : String :=
  f ++ ":" ++ mtimeRepr (Artifact.amtime fs f)

/-- Python's `sorted` on strings (lexicographic). -/
def pySorted (l : List String) : List String :=
  l.mergeSort (fun a b => decide (a ≤ b))

/-- `core.Artifact.hash`, `"glob"` branch:
`hash128("-".join(sorted(f"{file}:{mtime}" for file in glob.glob(path))))`,
given the list of paths the filesystem enumerates for the pattern. -/
def globHash (fs : FS) (ms : List String) : String :=
  hash128 (String.intercalate "-" (pySorted (ms.map (globComponent fs))))

/-- `core.Artifact._hash_file`: `open(path)` (raising `FileNotFoundError` when
the file is missing) followed by `hash128` of the content. -/
def Artifact.hashFile (fs : FS) (p : String) : Except String String :=
  match fs.lookup p with
  | some fi => .ok (hash128 fi.content)
  | none => .error "FileNotFoundError"

/-- `core.Artifact.hash`. `ge` is the glob collaborator: the list of matches
the filesystem enumerates for a pattern (`glob.glob(path, recursive=True)`). -/
def Artifact.hashE (fs : FS) (ge : String → List String) (a : Artifact) : Except String String :=
  if a.type = "file" then Artifact.hashFile fs a.path
  else if a.type = "glob" then .ok (globHash fs (ge a.path))
  else .error "RuntimeError: Cannot hash type"

/-- `core.Task` (the fields that take part in hashing and graph keys):
`name`, `type`, `input`, `output`, `_cacheable`. Upstream tasks are handled
at the graph level (`GraphM`, `edgesFuel`) to keep the structure finite. -/
structure TaskM where
  name : String
  type : String
  input : List Artifact
  output : List Artifact
  cacheable : Bool
deriving DecidableEq

/-- `core.Uri.uri`: `f"{self.type}.{self.name}"`. -/
def TaskM.uri (t : TaskM) : String := t.type ++ "." ++ t.name

/-- Modelled: the deterministic serialization of an `Artifact` dataclass used
inside `hash128(self)`. -/
def Artifact.serial (a : Artifact) : String :=
  a.name ++ "," ++ a.type ++ "," ++ a.path

/-- Modelled: the deterministic serialization of the `Task` dataclass used
inside `hash128(self)` (a pure function of the declared fields). -/
def TaskM.serial (t : TaskM) : String :=
  t.type ++ "." ++ t.name ++ ";" ++
    String.intercalate ";" (t.input.map Artifact.serial) ++ "|" ++
    String.intercalate ";" (t.output.map Artifact.serial) ++ "|" ++
    (if t.cacheable then "T" else "F")

/-- `core.Task.hash`: `hash128(self, *[i.hash() for i in self.input])`.
An exception from an input artifact's hash propagates. -/
def TaskM.hashE (fs : FS) (ge : String → List String) (t : TaskM) : Except String String := do
  let ihs ← t.input.mapM (Artifact.hashE fs ge)
  pure (hash128L (t.serial :: ihs))

/-- `core.Task.ref`: `hash128(self.hash(), *[o.hash() for o in self.output])`. -/
def TaskM.refE (fs : FS) (ge : String → List String) (t : TaskM) : Except String String := do
  let h ← TaskM.hashE fs ge t
  let ohs ← t.output.mapM (Artifact.hashE fs ge)
  pure (hash128L (h :: ohs))

/-- The ref value when hashing succeeds (all scenarios below only use it
where `TaskM.refE` is `.ok`). -/
def TaskM.refD (fs : FS) (ge : String → List String) (t : TaskM) : String :=
  (TaskM.refE fs ge t).toOption.getD ""

/-- The on-disk cache store of `core.Runner`: whether the directory
`.footing/cache/ref` exists, and the record files inside it
(file name, i.e. task uri, mapped to file content). -/
structure CacheFS where
  dirExists : Bool
  entries : List (String × String)
deriving DecidableEq

def lookupEntry (l : List (String × String)) (k : String) : Option String :=
  (l.find? (fun p => p.1 == k)).map (·.2)

/-- `core.Runner.cached_ref_path`: `.footing/cache/ref/<task.uri>`. -/
def cached_ref_path (t : TaskM) : String := ".footing/cache/ref/" ++ t.uri

/-- `core.Runner.cached_ref`: read the record file, `None` when `open`
raises `FileNotFoundError` (directory or file missing). -/
def cached_ref (c : CacheFS) (uri : String) : Option String :=
  if c.dirExists then lookupEntry c.entries uri else none

/-- `core.Runner.cache_ref`: `open(path, "w")` succeeds and writes the ref
when the directory exists; otherwise `FileNotFoundError` is caught, the
directory is created — and the function returns without writing the record
(this is the behaviour of the `except` branch in the source). -/
def cache_ref (c : CacheFS) (uri r : String) : CacheFS :=
  if c.dirExists then
    { c with entries := (uri, r) :: c.entries.filter (fun p => p.1 != uri) }
  else
    { c with dirExists := true }

/-- Outcome of `core.Runner.run_task`: the exception that propagated (if any),
the cache store and world after the call, and whether `task()` was invoked. -/
structure RunResult (E W : Type) where
  exc : Option E
  cache : CacheFS
  world : W
  executed : Bool
deriving DecidableEq

/-- `core.Runner.run_task`: return if `cached_ref(task) == task.ref()`,
otherwise run `task()` (modelled by `exec`, which may raise and may change
the world outside the cache store) and then `cache_ref(task)`, whose ref is
recomputed on the post-execution world. `ref` models `task.ref()`
(assumed to compute without raising, as in every scenario considered). -/
def run_task {E W : Type} (uri : String) (ref : W → String) (exec : W → Option E × W)
    (c : CacheFS) (w : W) : RunResult E W :=
  if cached_ref c uri = some (ref w) then ⟨none, c, w, false⟩
  else
    match exec w with
    | (some e, w') => ⟨some e, c, w', true⟩
    | (none, w') => ⟨none, cache_ref c uri (ref w'), w', true⟩

/-- `core.Graph` as consumed by `core.Runner.call`: the declared tasks and
the (upstream, downstream) edges. -/
structure GraphM where
  tasks : List TaskM
  edges : List (TaskM × TaskM)
deriving DecidableEq

/-- The node set of the networkx digraph built in `core.Runner.call`: nodes
are keyed by `task.uri`; `add_nodes_from` adds the task uris and
`add_edges_from` implicitly adds any edge endpoint not yet present.
Duplicates collapse (a networkx node key appears once). -/
def nodeUris (g : GraphM) : List String :=
  (g.tasks.map TaskM.uri ++ g.edges.map (fun e => e.1.uri)
    ++ g.edges.map (fun e => e.2.uri)).dedup

/-- The edge set of the digraph, keyed by uri, deduplicated. -/
def edgeUris (g : GraphM) : List (String × String) :=
  (g.edges.map (fun e => (e.1.uri, e.2.uri))).dedup

/-- A node is ready when no still-unprocessed upstream node points into it. -/
def ready (es : List (String × String)) (ns : List String) (n : String) : Bool :=
  ! es.any (fun e => e.2 == n && ns.contains e.1)

/-- Modelled from the spec: `networkx.topological_sort` (an external
collaborator of `core.Runner.call`): emit a ready node, remove it, repeat.
`none` when no topological order exists within the fuel. -/
def kahn (es : List (String × String)) : List String → Nat → Option (List String)
  | ns, 0 => if ns.isEmpty then some [] else none
  | ns, fuel+1 =>
    match ns.find? (ready es ns) with
    | none => if ns.isEmpty then some [] else none
    | some n => (kahn es (ns.erase n) fuel).map (fun ord => n :: ord)

/-- The order in which `core.Runner.call` invokes `run_task`, one complete
`run_task` per emitted node, sequentially. -/
def callOrder (g : GraphM) : Option (List String) :=
  kahn (edgeUris g) (nodeUris g) (nodeUris g).length

/-- `core.Task.edges` over the upstream relation of a configuration
(`up u` is the list of uris `u` declares upstream), instrumented with a
recursion-depth bound: the Python generator
`for u in self.upstream: yield Edge(u, self); yield from u.edges`
has no cycle check, and each `yield from` consumes one level of interpreter
stack; `none` means the traversal did not complete within that depth. -/
def edgesFuel (up : String → List String) : Nat → String → Option (List (String × String))
  | 0, _ => none
  | fuel+1, t =>
    (up t).foldr
      (fun u acc =>
        match edgesFuel up fuel u, acc with
        | some sub, some rest => some ((u, t) :: (sub ++ rest))
        | _, _ => none)
      (some [])

/-- The upstream relation of the cyclic configuration: task `op.a` declares
`op.b` upstream and `op.b` declares `op.a` upstream. -/
def cycUp : String → List String := fun s =>
  if s = "op.a" then ["op.b"]
  else if s = "op.b" then ["op.a"]
  else []

/-- `core.Contextual.__enter__` acting on the per-instance stack
`_context_stack[self]` (context managers identified by tokens): it creates a
fresh context manager, appends it, and enters it — unconditionally. -/
def contextualEnter (stack : List Nat) (ctx : Nat) : Except String (List Nat) :=
  .ok (stack ++ [ctx])

/-- `core.Contextual.__exit__`: `pop()` the most recently appended context
manager and exit it; `IndexError` when the stack is empty. -/
def contextualExit (stack : List Nat) : Except String (List Nat × Nat) :=
  match stack.getLast? with
  | some c => .ok (stack.dropLast, c)
  | none => .error "IndexError: pop from empty list"

/-- `obj.hash_file`: content hash of the file, with the deterministic
sentinel `hash("Not Found")` when `open` raises `FileNotFoundError`. -/
def hash_file (fs : FS) (path : String) : String :=
  match fs.lookup path with
  | some fi => objHash fi.content
  | none => objHash "Not Found"

/-- `tools.CachedBuild`: the persisted cache record of a `Toolkit` —
the produced environment path and the ref hash. -/
structure CachedBuildTk where
  path : String
  hash : String
deriving DecidableEq

/-- `tools.Toolkit` (the fields its cache logic reads): the configured name
(`Obj.name`, `None` when unnamed), the conda env root, the `editable` flag,
the computed reflective ref hash `self.ref.hash` (taken as given, since the
reflective serialization machinery is opaque to the cache logic), and
`xxh32_hexdigest(str(pathlib.Path.cwd()))`. -/
structure ToolkitM where
  cfgName : Option String
  condaEnvRoot : String
  editable : Bool
  refHash : String
  cwdHash : String
deriving DecidableEq

/-- `tools.Toolkit._conda_env_name`: `self.name or self.ref.hash`, suffixed
with `-xxh32(cwd)` when named or editable. -/
def ToolkitM.conda_env_name (t : ToolkitM) : String :=
  let base := t.cfgName.getD t.refHash
  if t.cfgName.isSome || t.editable then base ++ "-" ++ t.cwdHash else base

/-- `tools.Toolkit.conda_env_path`: `Path(conda_env_root) / conda_env_name`. -/
def ToolkitM.conda_env_path (t : ToolkitM) : String :=
  t.condaEnvRoot ++ "/" ++ t.conda_env_name

/-- `tools.Toolkit.cache_key`: the conda env name. -/
def ToolkitM.cache_key (t : ToolkitM) : String := t.conda_env_name

/-- `tools.Toolkit.cache_obj`: `CachedBuild(hash=self.ref.hash,
path=str(self.conda_env_path))`. -/
def ToolkitM.cache_obj (t : ToolkitM) : CachedBuildTk :=
  ⟨t.conda_env_path, t.refHash⟩

/-- `obj.Obj.read_cache`: parse the record file for the key; any exception
(missing or corrupt file) yields `None`. -/
def read_cache_tk (store : List (String × CachedBuildTk)) (k : String) : Option CachedBuildTk :=
  (store.find? (fun p => p.1 == k)).map (·.2)

/-- `obj.Obj.is_cached`: `self.read_cache() == self.cache_obj` — a pure
record comparison; the filesystem is not consulted. -/
def ToolkitM.is_cached (store : List (String × CachedBuildTk)) (t : ToolkitM) : Bool :=
  read_cache_tk store t.cache_key == some t.cache_obj

/-! ## Helper lemmas -/

theorem pySorted_perm (l : List String) : (pySorted l).Perm l :=
  List.mergeSort_perm l _

theorem pySorted_sorted (l : List String) : List.Sorted (· ≤ ·) (pySorted l) := by
  have h := @List.sorted_mergeSort String (fun a b : String => decide (a ≤ b))
    (fun a b c hab hbc => by
      simp only [decide_eq_true_eq] at *
      exact le_trans hab hbc)
    (fun a b => by
      simp only [Bool.or_eq_true, decide_eq_true_eq]
      exact le_total a b)
    l
  exact h.imp (fun hb => by simpa using hb)

theorem pySorted_congr {l1 l2 : List String} (h : l1.Perm l2) :
    pySorted l1 = pySorted l2 :=
  List.eq_of_perm_of_sorted ((pySorted_perm l1).trans (h.trans (pySorted_perm l2).symm))
    (pySorted_sorted l1) (pySorted_sorted l2)

theorem digitChar_ne_upper_n (d : Nat) : Nat.digitChar d ≠ 'N' := by
  by_cases h : d < 16
  · interval_cases d <;> decide
  · obtain ⟨k, rfl⟩ : ∃ k, d = k + 16 := ⟨d - 16, by omega⟩
    have h0 : Nat.digitChar (k + 16) = '*' := rfl
    rw [h0]
    decide

theorem toDigitsCore_mem (b : Nat) :
    ∀ (f n : Nat) (l : List Char) (c : Char), c ∈ Nat.toDigitsCore b f n l →
      c ∈ l ∨ ∃ d, c = Nat.digitChar d := by
  intro f
  induction f with
  | zero => intro n l c h; exact Or.inl h
  | succ f ih =>
    intro n l c h
    unfold Nat.toDigitsCore at h
    by_cases hz : n / b = 0
    · rw [if_pos hz] at h
      rcases List.mem_cons.mp h with h1 | h1
      · exact Or.inr ⟨n % b, h1⟩
      · exact Or.inl h1
    · rw [if_neg hz] at h
      rcases ih (n / b) (Nat.digitChar (n % b) :: l) c h with h1 | h1
      · rcases List.mem_cons.mp h1 with h2 | h2
        · exact Or.inr ⟨n % b, h2⟩
        · exact Or.inl h2
      · exact Or.inr h1

theorem natToString_ne_none_str (n : Nat) : toString n ≠ "None" := by
  intro h
  have h' : Nat.repr n = "None" := h
  have hd : Nat.toDigits 10 n = "None".data := by
    have := congrArg String.data h'
    simpa [Nat.repr, List.asString] using this
  have hN : 'N' ∈ Nat.toDigits 10 n := by
    rw [hd]; decide
  rcases toDigitsCore_mem 10 (n + 1) n [] 'N' (by simpa [Nat.toDigits] using hN) with h1 | h1
  · exact absurd h1 (List.not_mem_nil _)
  · rcases h1 with ⟨d, hdg⟩
    exact digitChar_ne_upper_n d hdg.symm

/-! ## C1 -/

/-- C1: if executing a stale task inside `Runner.run_task` raises, the
exception propagates to the caller and the cache store is untouched: the
record `Runner.cached_ref` returns for the task is identical after the
failed `run_task` to what it was before. -/
theorem run_task_exception_keeps_cache {E W : Type} (uri : String) (ref : W → String)
    (exec : W → Option E × W) (c : CacheFS) (w : W) (e : E) (w' : W)
    (hstale : cached_ref c uri ≠ some (ref w)) (hexec : exec w = (some e, w')) :
    (run_task uri ref exec c w).exc = some e ∧
    (run_task uri ref exec c w).cache = c ∧
    cached_ref (run_task uri ref exec c w).cache uri = cached_ref c uri := by
  unfold run_task
  rw [if_neg hstale, hexec]
  exact ⟨rfl, rfl, rfl⟩

/-- Witness for C1 at a concrete input: a task whose execution raises
`"boom"` while the cache store holds no record for it. -/
theorem run_task_exception_keeps_cache_witness :
    (cached_ref ⟨true, []⟩ "op.t" ≠ some "r" ∧
      (fun _ : Unit => ((some "boom" : Option String), ())) () = (some "boom", ())) ∧
    ((run_task "op.t" (fun _ : Unit => "r") (fun _ => (some "boom", ())) ⟨true, []⟩ ()).exc = some "boom" ∧
      (run_task "op.t" (fun _ : Unit => "r") (fun _ => (some "boom", ())) ⟨true, []⟩ ()).cache = ⟨true, []⟩ ∧
      cached_ref (run_task "op.t" (fun _ : Unit => "r") (fun _ => (some "boom", ())) ⟨true, []⟩ ()).cache "op.t" =
        cached_ref ⟨true, []⟩ "op.t") :=
  ⟨⟨by decide, rfl⟩,
    run_task_exception_keeps_cache "op.t" (fun _ : Unit => "r")
      (fun _ => (some "boom", ())) ⟨true, []⟩ () "boom" () (by decide) rfl⟩

/-! ## C2 -/

/-- C2, evaluated at the failing input: on the very first successful run —
the cache directory `.footing/cache/ref` does not yet exist — the task
executes and completes without exception, `cache_ref` catches the
`FileNotFoundError` from `open(..., "w")`, creates the directory and
returns without writing; `cached_ref` afterwards is `none`, not the
task's ref `"r"`. -/
theorem run_task_first_write_loses_record :
    (run_task "op.t" (fun _ : Unit => "r") (fun w => ((none : Option String), w)) ⟨false, []⟩ ()).exc = none ∧
    (run_task "op.t" (fun _ : Unit => "r") (fun w => ((none : Option String), w)) ⟨false, []⟩ ()).executed = true ∧
    cached_ref (run_task "op.t" (fun _ : Unit => "r") (fun w => ((none : Option String), w)) ⟨false, []⟩ ()).cache
      "op.t" = none := by
  decide

/-! ## C3 -/

/-- C3 counterexample: a `Toolkit` (configured name `tk`, env root `/envs`,
ref hash `h1`, cwd hash `c1`) whose persisted record equals the freshly
computed one, on a filesystem where the recorded environment path
`/envs/tk-c1` does not exist: `is_cached` still reports `true` — the claim
says it must be `false`. -/
theorem toolkit_cache_hit_despite_missing_path :
    ToolkitM.is_cached [("tk-c1", ⟨"/envs/tk-c1", "h1"⟩)] ⟨some "tk", "/envs", false, "h1", "c1"⟩ = true ∧
    FS.pathExists ⟨[]⟩ (ToolkitM.conda_env_path ⟨some "tk", "/envs", false, "h1", "c1"⟩) = false := by
  decide

/-- C3 amended: `Obj.is_cached` for a `Toolkit` is exactly the equality of
the persisted cache record with the freshly computed `CachedBuild` (ref
hash and environment path string); whether the recorded path still exists
on disk plays no part — the filesystem is not an input of the computation,
so a matching record is a cache hit even after the environment directory
has been deleted externally. -/
theorem toolkit_is_cached_iff_record_matches (store : List (String × CachedBuildTk)) (t : ToolkitM) :
    ToolkitM.is_cached store t = true ↔
      read_cache_tk store t.cache_key = some t.cache_obj := by
  simp [ToolkitM.is_cached]

/-! ## C5 -/

/-- C5 counterexample: a file-kind artifact whose path names a missing file
raises `FileNotFoundError` from `Artifact._hash_file` — `hash()` does not
return the sentinel for file-kind artifacts. -/
theorem file_artifact_hash_raises_on_missing :
    Artifact.hashE ⟨[]⟩ (fun _ => []) ⟨"a.txt", "file", "a.txt"⟩ = .error "FileNotFoundError" := by
  rfl

/-- C5 amended: the never-raising sentinel behaviour belongs to the glob
branch of `Artifact.hash` and to `obj.hash_file`, not to file-kind
artifacts. A glob artifact's hash never raises, a missing matched file
contributing the deterministic component `path:None`, distinguishable from
the component of any existing file (a numeral mtime never renders as
`None`); `obj.hash_file` returns the deterministic sentinel
`hash("Not Found")` for a missing file. A file-kind `Artifact.hash` of a
missing file, by contrast, raises (see the counterexample). -/
theorem missing_file_sentinel_hashing (fs : FS) (ge : String → List String)
    (nm pat f : String) (hmiss : fs.lookup f = none) :
    Artifact.hashE fs ge ⟨nm, "glob", pat⟩ = .ok (globHash fs (ge pat)) ∧
    globComponent fs f = f ++ ":" ++ mtimeRepr none ∧
    (∀ m : Nat, mtimeRepr (some m) ≠ mtimeRepr none) ∧
    hash_file fs f = objHash "Not Found" := by
  refine ⟨?_, ?_, ?_, ?_⟩
  · simp [Artifact.hashE]
  · simp [globComponent, Artifact.amtime, hmiss]
  · intro m
    simpa [mtimeRepr] using natToString_ne_none_str m
  · simp [hash_file, hmiss]

/-- Witness for C5's amended theorem at a concrete input: the empty
filesystem, where `x.txt` is missing. -/
theorem missing_file_sentinel_hashing_witness :
    (FS.lookup ⟨[]⟩ "x.txt" = none) ∧
    (Artifact.hashE ⟨[]⟩ (fun _ => ["x.txt"]) ⟨"g", "glob", "*.txt"⟩ =
        .ok (globHash ⟨[]⟩ ((fun _ => ["x.txt"]) "*.txt")) ∧
      globComponent ⟨[]⟩ "x.txt" = "x.txt" ++ ":" ++ mtimeRepr none ∧
      (∀ m : Nat, mtimeRepr (some m) ≠ mtimeRepr none) ∧
      hash_file ⟨[]⟩ "x.txt" = objHash "Not Found") :=
  ⟨by decide,
    missing_file_sentinel_hashing ⟨[]⟩ (fun _ => ["x.txt"]) "g" "*.txt" "x.txt" (by decide)⟩

/-! ## C8 -/

/-- C8: a glob artifact's hash depends only on the set of matched paths (and
the filesystem), not on the enumeration order: two enumerations of the same
match set that are permutations of one another give identical `hash()`
values, thanks to the sort before concatenation. -/
theorem glob_hash_enumeration_order_independent (fs : FS) (m1 m2 : List String)
    (h : m1.Perm m2) : globHash fs m1 = globHash fs m2 := by
  unfold globHash
  rw [pySorted_congr (h.map (globComponent fs))]

/-- Witness for C8 at a concrete input: two enumeration orders of the same
two files. -/
theorem glob_hash_enumeration_order_independent_witness :
    (["b.txt", "a.txt"].Perm ["a.txt", "b.txt"]) ∧
    globHash ⟨[("a.txt", ⟨"x", 1⟩), ("b.txt", ⟨"y", 2⟩)]⟩ ["b.txt", "a.txt"] =
      globHash ⟨[("a.txt", ⟨"x", 1⟩), ("b.txt", ⟨"y", 2⟩)]⟩ ["a.txt", "b.txt"] :=
  ⟨by decide,
    glob_hash_enumeration_order_independent ⟨[("a.txt", ⟨"x", 1⟩), ("b.txt", ⟨"y", 2⟩)]⟩
      ["b.txt", "a.txt"] ["a.txt", "b.txt"] (by decide)⟩

/-! ## C9 -/

/-- C9 counterexample: entering a `Contextual` instance that is already
active (its per-instance stack holds an entered context manager) does not
fail fast: the second `enter()` succeeds and appends a second context
manager to the stack. -/
theorem contextual_second_enter_nests :
    contextualEnter [1] 2 = .ok [1, 2] := by
  rfl

/-- C9 amended: `enter()` on an already-active instance succeeds
unconditionally — there is no "currently active" guard — appending the
fresh context manager to the instance's stack (silent nesting); `exit()`
pops the most recently appended one, so nested enters and exits pair LIFO. -/
theorem contextual_enter_appends_lifo (stack : List Nat) (ctx : Nat) :
    contextualEnter stack ctx = .ok (stack ++ [ctx]) ∧
    contextualExit (stack ++ [ctx]) = .ok (stack, ctx) := by
  refine ⟨rfl, ?_⟩
  simp [contextualExit, List.getLast?_concat, List.dropLast_concat]

/-! ## C4 -/

/-- C4 counterexample: a file-kind artifact is hashed by content, not by
path + mtime. With one file input `a.txt` of content `x`, bumping only the
mtime (1 to 2) between two invocations leaves `hash()` unchanged, so the
second `run_task` finds `cached_ref == ref` and returns without executing
the command — the claim says it must re-execute. -/
theorem file_hash_ignores_mtime_touch :
    Artifact.hashE ⟨[("a.txt", ⟨"x", 1⟩)]⟩ (fun _ => []) ⟨"a.txt", "file", "a.txt"⟩ =
      Artifact.hashE ⟨[("a.txt", ⟨"x", 2⟩)]⟩ (fun _ => []) ⟨"a.txt", "file", "a.txt"⟩ ∧
    (run_task (TaskM.uri ⟨"t", "op", [⟨"a.txt", "file", "a.txt"⟩], [], true⟩)
        (fun fs => TaskM.refD fs (fun _ => []) ⟨"t", "op", [⟨"a.txt", "file", "a.txt"⟩], [], true⟩)
        (fun fs => ((none : Option String), fs))
        (run_task (TaskM.uri ⟨"t", "op", [⟨"a.txt", "file", "a.txt"⟩], [], true⟩)
          (fun fs => TaskM.refD fs (fun _ => []) ⟨"t", "op", [⟨"a.txt", "file", "a.txt"⟩], [], true⟩)
          (fun fs => ((none : Option String), fs))
          ⟨true, []⟩ ⟨[("a.txt", ⟨"x", 1⟩)]⟩).cache
        ⟨[("a.txt", ⟨"x", 2⟩)]⟩).executed = false := by
  exact ⟨rfl, by decide⟩

/-- C4 amended: a file-kind artifact's `hash()` is a fingerprint of the
file's content only; consequently, for a task with one file input, a change
that preserves the content (such as touching the mtime) leaves the
artifact hash and the task ref unchanged, and a second `call()` that finds
the previous run's record is a cache hit: `run_task` returns without
re-executing the command. (A content change, by contrast, changes the
fingerprint the cache comparison is made against.) -/
theorem file_hash_content_only_cache_hit {E : Type} (fs1 fs2 : FS) (ge : String → List String)
    (nm ty n p : String) (f1 f2 : FileInfo) (c : CacheFS) (exec : FS → Option E × FS)
    (t : TaskM) (ht : t = ⟨nm, ty, [⟨n, "file", p⟩], [], true⟩)
    (h1 : fs1.lookup p = some f1) (h2 : fs2.lookup p = some f2)
    (hc : f1.content = f2.content)
    (hcache : cached_ref c t.uri = some (TaskM.refD fs1 ge t)) :
    Artifact.hashE fs1 ge ⟨n, "file", p⟩ = Artifact.hashE fs2 ge ⟨n, "file", p⟩ ∧
    TaskM.refE fs1 ge t = TaskM.refE fs2 ge t ∧
    run_task t.uri (fun fs => TaskM.refD fs ge t) exec c fs2 = ⟨none, c, fs2, false⟩ := by
  subst ht
  have ha : Artifact.hashE fs1 ge ⟨n, "file", p⟩ = Artifact.hashE fs2 ge ⟨n, "file", p⟩ := by
    simp [Artifact.hashE, Artifact.hashFile, h1, h2, hc]
  have hr : TaskM.refE fs1 ge ⟨nm, ty, [⟨n, "file", p⟩], [], true⟩ =
      TaskM.refE fs2 ge ⟨nm, ty, [⟨n, "file", p⟩], [], true⟩ := by
    simp only [TaskM.refE, TaskM.hashE, List.mapM_cons, List.mapM_nil, ha]
  have hd : TaskM.refD fs1 ge ⟨nm, ty, [⟨n, "file", p⟩], [], true⟩ =
      TaskM.refD fs2 ge ⟨nm, ty, [⟨n, "file", p⟩], [], true⟩ := by
    unfold TaskM.refD
    rw [hr]
  refine ⟨ha, hr, ?_⟩
  have hcache2 : cached_ref c (TaskM.uri ⟨nm, ty, [⟨n, "file", p⟩], [], true⟩) =
      some (TaskM.refD fs2 ge ⟨nm, ty, [⟨n, "file", p⟩], [], true⟩) := by
    rw [hd] at hcache
    exact hcache
  simp [run_task, hcache2]

/-- Witness for C4's amended theorem at a concrete input: content `x`
unchanged, mtime bumped from 1 to 2, previous run's record in the store. -/
theorem file_hash_content_only_cache_hit_witness :
    ((⟨"t", "op", [⟨"a.txt", "file", "a.txt"⟩], [], true⟩ : TaskM) =
        ⟨"t", "op", [⟨"a.txt", "file", "a.txt"⟩], [], true⟩ ∧
      FS.lookup ⟨[("a.txt", ⟨"x", 1⟩)]⟩ "a.txt" = some ⟨"x", 1⟩ ∧
      FS.lookup ⟨[("a.txt", ⟨"x", 2⟩)]⟩ "a.txt" = some ⟨"x", 2⟩ ∧
      (⟨"x", 1⟩ : FileInfo).content = (⟨"x", 2⟩ : FileInfo).content ∧
      cached_ref
          ⟨true, [("op.t", TaskM.refD ⟨[("a.txt", ⟨"x", 1⟩)]⟩ (fun _ => [])
            ⟨"t", "op", [⟨"a.txt", "file", "a.txt"⟩], [], true⟩)]⟩
          (TaskM.uri ⟨"t", "op", [⟨"a.txt", "file", "a.txt"⟩], [], true⟩) =
        some (TaskM.refD ⟨[("a.txt", ⟨"x", 1⟩)]⟩ (fun _ => [])
          ⟨"t", "op", [⟨"a.txt", "file", "a.txt"⟩], [], true⟩)) ∧
    (Artifact.hashE ⟨[("a.txt", ⟨"x", 1⟩)]⟩ (fun _ => []) ⟨"a.txt", "file", "a.txt"⟩ =
        Artifact.hashE ⟨[("a.txt", ⟨"x", 2⟩)]⟩ (fun _ => []) ⟨"a.txt", "file", "a.txt"⟩ ∧
      TaskM.refE ⟨[("a.txt", ⟨"x", 1⟩)]⟩ (fun _ => []) ⟨"t", "op", [⟨"a.txt", "file", "a.txt"⟩], [], true⟩ =
        TaskM.refE ⟨[("a.txt", ⟨"x", 2⟩)]⟩ (fun _ => []) ⟨"t", "op", [⟨"a.txt", "file", "a.txt"⟩], [], true⟩ ∧
      run_task (TaskM.uri ⟨"t", "op", [⟨"a.txt", "file", "a.txt"⟩], [], true⟩)
          (fun fs => TaskM.refD fs (fun _ => []) ⟨"t", "op", [⟨"a.txt", "file", "a.txt"⟩], [], true⟩)
          (fun fs => ((none : Option String), fs))
          ⟨true, [("op.t", TaskM.refD ⟨[("a.txt", ⟨"x", 1⟩)]⟩ (fun _ => [])
            ⟨"t", "op", [⟨"a.txt", "file", "a.txt"⟩], [], true⟩)]⟩
          ⟨[("a.txt", ⟨"x", 2⟩)]⟩ =
        ⟨none, ⟨true, [("op.t", TaskM.refD ⟨[("a.txt", ⟨"x", 1⟩)]⟩ (fun _ => [])
          ⟨"t", "op", [⟨"a.txt", "file", "a.txt"⟩], [], true⟩)]⟩, ⟨[("a.txt", ⟨"x", 2⟩)]⟩, false⟩) :=
  ⟨⟨rfl, by decide, by decide, rfl, by decide⟩,
    file_hash_content_only_cache_hit ⟨[("a.txt", ⟨"x", 1⟩)]⟩ ⟨[("a.txt", ⟨"x", 2⟩)]⟩ (fun _ => [])
      "t" "op" "a.txt" "a.txt" ⟨"x", 1⟩ ⟨"x", 2⟩
      ⟨true, [("op.t", TaskM.refD ⟨[("a.txt", ⟨"x", 1⟩)]⟩ (fun _ => [])
        ⟨"t", "op", [⟨"a.txt", "file", "a.txt"⟩], [], true⟩)]⟩
      (fun fs => ((none : Option String), fs))
      ⟨"t", "op", [⟨"a.txt", "file", "a.txt"⟩], [], true⟩ rfl (by decide) (by decide) rfl (by decide)⟩

/-! ## Graph execution lemmas (C7, C10) -/

theorem exists_min_rank (rank : String → Nat) :
    ∀ (ns : List String), ns ≠ [] → ∃ m ∈ ns, ∀ x ∈ ns, rank m ≤ rank x := by
  intro ns
  induction ns with
  | nil => intro h; exact absurd rfl h
  | cons a l ih =>
    intro _
    cases l with
    | nil =>
      refine ⟨a, List.mem_cons_self a _, ?_⟩
      intro x hx
      rcases List.mem_cons.mp hx with rfl | hx'
      · exact le_refl _
      · exact absurd hx' (List.not_mem_nil x)
    | cons b t =>
      obtain ⟨m, hm, hmin⟩ := ih (by simp)
      by_cases hc : rank a ≤ rank m
      · refine ⟨a, List.mem_cons_self a _, ?_⟩
        intro x hx
        rcases List.mem_cons.mp hx with rfl | hx'
        · exact le_refl _
        · exact le_trans hc (hmin x hx')
      · refine ⟨m, List.mem_cons_of_mem a hm, ?_⟩
        intro x hx
        rcases List.mem_cons.mp hx with rfl | hx'
        · exact le_of_lt (lt_of_not_le hc)
        · exact hmin x hx'

theorem exists_ready_of_rank (es : List (String × String)) (rank : String → Nat)
    (hr : ∀ e ∈ es, rank e.1 < rank e.2) (ns : List String) (hne : ns ≠ []) :
    ∃ n ∈ ns, ready es ns n = true := by
  obtain ⟨m, hm, hmin⟩ := exists_min_rank rank ns hne
  refine ⟨m, hm, ?_⟩
  unfold ready
  rw [Bool.not_eq_true']
  rw [List.any_eq_false]
  intro e he hcon
  rw [Bool.and_eq_true] at hcon
  have h2 : e.2 = m := by
    have := hcon.1
    simpa using this
  have h1 : e.1 ∈ ns := by
    have := hcon.2
    simpa using this
  have hlt : rank e.1 < rank m := h2 ▸ hr e he
  exact absurd (hmin e.1 h1) (not_le_of_lt hlt)

theorem kahn_some_perm (es : List (String × String)) :
    ∀ (fuel : Nat) (ns ord : List String),
      kahn es ns fuel = some ord → ord.Perm ns := by
  intro fuel
  induction fuel with
  | zero =>
    intro ns ord h
    unfold kahn at h
    cases ns with
    | nil =>
      simp at h
      subst h
      exact List.Perm.refl _
    | cons a l => simp at h
  | succ fuel ih =>
    intro ns ord h
    unfold kahn at h
    cases hf : ns.find? (ready es ns) with
    | none =>
      rw [hf] at h
      cases ns with
      | nil =>
        simp at h
        subst h
        exact List.Perm.refl _
      | cons a l => simp at h
    | some n =>
      rw [hf] at h
      rcases Option.map_eq_some'.mp h with ⟨ord', hord', heq⟩
      subst heq
      have hnmem : n ∈ ns := List.mem_of_find?_eq_some hf
      exact ((ih (ns.erase n) ord' hord').cons n).trans (List.perm_cons_erase hnmem).symm

theorem kahn_complete (es : List (String × String)) (rank : String → Nat)
    (hr : ∀ e ∈ es, rank e.1 < rank e.2) :
    ∀ (fuel : Nat) (ns : List String), ns.length ≤ fuel → ns.Nodup →
      ∃ ord, kahn es ns fuel = some ord ∧ ord.Perm ns ∧
        ∀ e ∈ es, e.1 ∈ ns → e.2 ∈ ns → ord.indexOf e.1 < ord.indexOf e.2 := by
  intro fuel
  induction fuel with
  | zero =>
    intro ns hlen _
    have hnil : ns = [] := List.eq_nil_of_length_eq_zero (Nat.le_zero.mp hlen)
    subst hnil
    exact ⟨[], by simp [kahn], List.Perm.refl _, by simp⟩
  | succ fuel ih =>
    intro ns hlen hnd
    by_cases hns : ns = []
    · subst hns
      exact ⟨[], by simp [kahn], List.Perm.refl _, by simp⟩
    · obtain ⟨n0, hn0, hready0⟩ := exists_ready_of_rank es rank hr ns hns
      obtain ⟨n, hfn⟩ := Option.isSome_iff_exists.mp (List.find?_isSome.mpr ⟨n0, hn0, hready0⟩)
      have hnmem : n ∈ ns := List.mem_of_find?_eq_some hfn
      have hnready : ready es ns n = true := List.find?_some hfn
      have hlen' : (ns.erase n).length ≤ fuel := by
        rw [List.length_erase_of_mem hnmem]
        have : 1 ≤ ns.length := List.length_pos.mpr hns
        omega
      obtain ⟨ord', hord', hperm', htopo'⟩ := ih (ns.erase n) hlen' (hnd.erase n)
      have hanyf : es.any (fun e' => e'.2 == n && ns.contains e'.1) = false := by
        have h := hnready
        unfold ready at h
        rwa [Bool.not_eq_true'] at h
      have hno : ∀ e' ∈ es, e'.2 = n → e'.1 ∉ ns := by
        intro e' he' h2 h1
        have hfalse := List.any_eq_false.mp hanyf e' he'
        apply hfalse
        rw [Bool.and_eq_true]
        constructor
        · simpa using h2
        · simpa using h1
      refine ⟨n :: ord', ?_, ?_, ?_⟩
      · unfold kahn
        rw [hfn]
        simp [hord']
      · exact ((hperm'.cons n).trans (List.perm_cons_erase hnmem).symm)
      · intro e he he1 he2
        have he2n : e.2 ≠ n := fun h => hno e he h he1
        by_cases he1n : e.1 = n
        · rw [he1n, List.indexOf_cons_self]
          rw [List.indexOf_cons_ne ord' (Ne.symm he2n)]
          exact Nat.succ_pos _
        · have h1' : e.1 ∈ ns.erase n := (List.mem_erase_of_ne he1n).mpr he1
          have h2' : e.2 ∈ ns.erase n := (List.mem_erase_of_ne he2n).mpr he2
          have hlt := htopo' e he h1' h2'
          rw [List.indexOf_cons_ne ord' (Ne.symm he1n), List.indexOf_cons_ne ord' (Ne.symm he2n)]
          omega

theorem edge_mem_nodes (g : GraphM) (e : String × String) (he : e ∈ edgeUris g) :
    e.1 ∈ nodeUris g ∧ e.2 ∈ nodeUris g := by
  have he' := List.mem_dedup.mp he
  rcases List.mem_map.mp he' with ⟨ed, hed, heq⟩
  constructor
  · rw [nodeUris, List.mem_dedup]
    rw [List.mem_append]
    left
    rw [List.mem_append]
    right
    exact List.mem_map.mpr ⟨ed, hed, by rw [← heq]⟩
  · rw [nodeUris, List.mem_dedup]
    rw [List.mem_append]
    right
    exact List.mem_map.mpr ⟨ed, hed, by rw [← heq]⟩

/-! ## C7 -/

/-- C7: for an acyclic task graph (witnessed by a rank function that
strictly increases along every uri-level edge, i.e. a valid topological
order exists), `Runner.call` processes the nodes in a topological order:
the sort succeeds, the emitted sequence — along which `run_task` is invoked
sequentially, each invocation completing before the next begins — contains
every node of the graph exactly once (it is a permutation of the node set),
and for every edge the upstream node's position is strictly before the
downstream node's position. -/
theorem runner_call_topological (g : GraphM) (rank : String → Nat)
    (hr : ∀ e ∈ edgeUris g, rank e.1 < rank e.2) :
    ∃ ord, callOrder g = some ord ∧ ord.Perm (nodeUris g) ∧
      ∀ e ∈ edgeUris g, ord.indexOf e.1 < ord.indexOf e.2 := by
  obtain ⟨ord, h1, h2, h3⟩ := kahn_complete (edgeUris g) rank hr
    (nodeUris g).length (nodeUris g) le_rfl (List.nodup_dedup _)
  refine ⟨ord, h1, h2, ?_⟩
  intro e he
  obtain ⟨hm1, hm2⟩ := edge_mem_nodes g e he
  exact h3 e he hm1 hm2

/-- Witness for C7 at a concrete input: the two-task graph
`op.a ⟶ op.b` with the rank that maps `op.a` to 0 and everything else
to 1. -/
theorem runner_call_topological_witness :
    (∀ e ∈ edgeUris ⟨[⟨"a", "op", [], [], true⟩, ⟨"b", "op", [], [], true⟩],
        [(⟨"a", "op", [], [], true⟩, ⟨"b", "op", [], [], true⟩)]⟩,
      (fun s => if s = "op.a" then 0 else 1) e.1 < (fun s => if s = "op.a" then 0 else 1) e.2) ∧
    (∃ ord, callOrder ⟨[⟨"a", "op", [], [], true⟩, ⟨"b", "op", [], [], true⟩],
        [(⟨"a", "op", [], [], true⟩, ⟨"b", "op", [], [], true⟩)]⟩ = some ord ∧
      ord.Perm (nodeUris ⟨[⟨"a", "op", [], [], true⟩, ⟨"b", "op", [], [], true⟩],
        [(⟨"a", "op", [], [], true⟩, ⟨"b", "op", [], [], true⟩)]⟩) ∧
      ∀ e ∈ edgeUris ⟨[⟨"a", "op", [], [], true⟩, ⟨"b", "op", [], [], true⟩],
          [(⟨"a", "op", [], [], true⟩, ⟨"b", "op", [], [], true⟩)]⟩,
        ord.indexOf e.1 < ord.indexOf e.2) :=
  ⟨by decide,
    runner_call_topological
      ⟨[⟨"a", "op", [], [], true⟩, ⟨"b", "op", [], [], true⟩],
        [(⟨"a", "op", [], [], true⟩, ⟨"b", "op", [], [], true⟩)]⟩
      (fun s => if s = "op.a" then 0 else 1) (by decide)⟩

/-! ## C10 -/

/-- C10: `Runner.call` keys graph nodes by `task.uri` and the cache record
path by the same uri: two distinct `Task` values in the graph that share a
uri collapse into a single node (the uri occurs exactly once in the node
set), any order the sort emits invokes `run_task` at most once for that uri
(so at most one of the two tasks is executed), and both tasks share the
single record file `.footing/cache/ref/<uri>`. -/
theorem runner_keys_by_uri_collapse (g : GraphM) (t1 t2 : TaskM)
    (h1 : t1 ∈ g.tasks) (h2 : t2 ∈ g.tasks) (hne : t1 ≠ t2) (huri : t1.uri = t2.uri) :
    cached_ref_path t1 = cached_ref_path t2 ∧
    cached_ref_path t1 = ".footing/cache/ref/" ++ t1.uri ∧
    (nodeUris g).count t1.uri = 1 ∧
    ∀ ord, callOrder g = some ord → ord.count t1.uri = 1 := by
  have hmem : t1.uri ∈ nodeUris g := by
    rw [nodeUris, List.mem_dedup, List.mem_append, List.mem_append]
    left
    left
    exact List.mem_map.mpr ⟨t1, h1, rfl⟩
  have hcount : (nodeUris g).count t1.uri = 1 :=
    List.count_eq_one_of_mem (List.nodup_dedup _) hmem
  refine ⟨?_, rfl, hcount, ?_⟩
  · unfold cached_ref_path
    rw [huri]
  · intro ord hord
    have hperm := kahn_some_perm (edgeUris g) (nodeUris g).length (nodeUris g) ord hord
    rw [hperm.count_eq t1.uri]
    exact hcount

/-- Witness for C10 at a concrete input: two tasks that differ only in
`cacheable` (hence are distinct values) but share the uri `op.x`. -/
theorem runner_keys_by_uri_collapse_witness :
    ((⟨"x", "op", [], [], true⟩ : TaskM) ∈
        (⟨[⟨"x", "op", [], [], true⟩, ⟨"x", "op", [], [], false⟩], []⟩ : GraphM).tasks ∧
      (⟨"x", "op", [], [], false⟩ : TaskM) ∈
        (⟨[⟨"x", "op", [], [], true⟩, ⟨"x", "op", [], [], false⟩], []⟩ : GraphM).tasks ∧
      (⟨"x", "op", [], [], true⟩ : TaskM) ≠ ⟨"x", "op", [], [], false⟩ ∧
      TaskM.uri ⟨"x", "op", [], [], true⟩ = TaskM.uri ⟨"x", "op", [], [], false⟩) ∧
    (cached_ref_path ⟨"x", "op", [], [], true⟩ = cached_ref_path ⟨"x", "op", [], [], false⟩ ∧
      cached_ref_path ⟨"x", "op", [], [], true⟩ =
        ".footing/cache/ref/" ++ TaskM.uri ⟨"x", "op", [], [], true⟩ ∧
      (nodeUris ⟨[⟨"x", "op", [], [], true⟩, ⟨"x", "op", [], [], false⟩], []⟩).count
        (TaskM.uri ⟨"x", "op", [], [], true⟩) = 1 ∧
      ∀ ord, callOrder ⟨[⟨"x", "op", [], [], true⟩, ⟨"x", "op", [], [], false⟩], []⟩ = some ord →
        ord.count (TaskM.uri ⟨"x", "op", [], [], true⟩) = 1) :=
  ⟨⟨by decide, by decide, by decide, rfl⟩,
    runner_keys_by_uri_collapse ⟨[⟨"x", "op", [], [], true⟩, ⟨"x", "op", [], [], false⟩], []⟩
      ⟨"x", "op", [], [], true⟩ ⟨"x", "op", [], [], false⟩
      (by decide) (by decide) (by decide) rfl⟩

/-! ## C6 -/

/-- C6: `Task.edges` has no cycle detection. On the cyclic configuration
where `op.a` and `op.b` declare each other upstream, the recursive
traversal behind `Task.edges` / `Task.graph` (and hence `Runner.call`,
which forces `tuple(self.edges)` first) never completes at any finite
recursion depth — no depth bound suffices — so no cycle-detected
configuration error is raised; the Python process dies of stack exhaustion
(`RecursionError`) instead. -/
theorem cyclic_upstream_edges_never_complete :
    ¬ ∃ fuel, (edgesFuel cycUp fuel "op.a").isSome = true := by
  have key : ∀ fuel, edgesFuel cycUp fuel "op.a" = none ∧ edgesFuel cycUp fuel "op.b" = none := by
    intro fuel
    induction fuel with
    | zero => exact ⟨rfl, rfl⟩
    | succ fuel ih =>
      constructor
      · show edgesFuel cycUp (fuel + 1) "op.a" = none
        unfold edgesFuel
        simp [cycUp, ih.2]
      · show edgesFuel cycUp (fuel + 1) "op.b" = none
        unfold edgesFuel
        simp [cycUp, ih.1]
  rintro ⟨fuel, hs⟩
  rw [(key fuel).1] at hs
  simp at hs
